import Mathlib

/-!
Shallow embedding of the job-classification core of `utils.py` from the
job-scraper repository: `clean_text`, `extract_min_years` and
`is_entry_level`, together with the regular-expression searches they
perform.  Python strings are modelled as Lean `String` (processed through
their `List Char` data), Python `None` / missing / non-string dictionary
entries as `Option String` being `none`, and the regular expressions used
by the code are modelled by hand-rolled deterministic matchers (each
pattern in the code is free of nontrivial backtracking, so maximal-munch
scanning is faithful).
-/

namespace JobScraper

/-- Python regex `\s` / `str.split()` whitespace, ASCII range:
space, tab, newline, carriage return, vertical tab, form feed. -/
def isWs (c : Char) : Bool :=
  c = ' ' || c = '\t' || c = '\n' || c = '\r' || c = '\x0b' || c = '\x0c'

/-- Python regex word character `\w` (ASCII range): letter, digit or underscore. -/
def isWordChar (c : Char) : Bool := c.isAlphanum || c = '_'

/-- Python `str.lower` on one character (ASCII range): `A`-`Z` maps to
`a`-`z`, everything else is unchanged. -/
def pyLower (c : Char) : Char :=
  if 65 ≤ c.toNat ∧ c.toNat ≤ 90 then Char.ofNat (c.toNat + 32) else c

/-! ### `clean_text` (utils.py lines 99-108)

`BeautifulSoup(text, "html.parser").get_text(separator=" ")` is modelled by
`stripTags`, which follows the dispatch of CPython's `html.parser`: a `<`
opens markup only when followed by an ASCII letter (start tag), `/` (end
tag), `!` (declaration or comment) or `?` (processing instruction) — any
other `<` is literal text data; a markup span is skipped up to the next
`>` and contributes one separator space; and, as with the parser's default
`convert_charrefs=True`, character references in text are decoded
(`&#NNN;`, `&#xHH;`, and the five standard named references — the full
HTML5 named table, the no-semicolon legacy forms, the `-->` comment
terminator and quoted `>` inside attribute values are not reproduced, and
no theorem depends on them).  `" ".join(plain_text.split())` is modelled
by `splitWords` / `joinWords`, and `.lower()` by mapping `pyLower`. -/

/-- Numeric value of a decimal digit run (Python `int`). -/
def digitsVal (ds : List Char) : Nat := ds.foldl (fun a c => a * 10 + (c.toNat - 48)) 0

/-- Does the character after a `<` start markup?  CPython `html.parser`
recognises `<` + letter, `</`, `<!` and `<?`; everything else leaves the
`<` as literal text. -/
def tagOpener : List Char → Bool
  | c :: _ => c.isAlpha || c = '/' || c = '!' || c = '?'
  | [] => false

/-- Hexadecimal digit `[0-9a-fA-F]`. -/
def isHexDigitChar (c : Char) : Bool :=
  c.isDigit || decide ('a' ≤ c ∧ c ≤ 'f') || decide ('A' ≤ c ∧ c ≤ 'F')

/-- Value of one hexadecimal digit. -/
def hexDigitVal (c : Char) : Nat :=
  if c.isDigit then c.toNat - 48
  else if decide ('a' ≤ c ∧ c ≤ 'f') then c.toNat - 87
  else c.toNat - 55

/-- Numeric value of a hexadecimal digit run. -/
def hexVal (ds : List Char) : Nat := ds.foldl (fun a c => a * 16 + hexDigitVal c) 0

/-- Character of a numeric reference: a valid Unicode scalar value maps to
itself, anything else to U+FFFD as `html.unescape` does for out-of-range
references (the HTML5 windows-1252 remapping of `0x80`-`0x9f` is not
reproduced). -/
def charOfCodepoint (n : Nat) : Char :=
  if h : n.isValidChar then Char.ofNatAux n h else '�'

/-- The five standard named character references; unknown names stay
literal, as `html.unescape` leaves them (the long tail of the HTML5 named
table is not reproduced). -/
def namedCharref (name : List Char) : Option Char :=
  if name = ("amp").data then some '&'
  else if name = ("lt").data then some '<'
  else if name = ("gt").data then some '>'
  else if name = ("quot").data then some '"'
  else if name = ("apos").data then some (Char.ofNat 39)
  else none

/-- Parse a character reference right after a `&`: returns the decoded
character and the number of characters consumed after the `&`.  Only the
semicolon-terminated forms are modelled. -/
def parseCharref (s : List Char) : Option (Char × Nat) :=
  match s with
  | '#' :: 'x' :: rest =>
    let hs := rest.takeWhile isHexDigitChar
    if hs = [] then none
    else
      match rest.drop hs.length with
      | ';' :: _ => some (charOfCodepoint (hexVal hs), hs.length + 3)
      | _ => none
  | '#' :: 'X' :: rest =>
    let hs := rest.takeWhile isHexDigitChar
    if hs = [] then none
    else
      match rest.drop hs.length with
      | ';' :: _ => some (charOfCodepoint (hexVal hs), hs.length + 3)
      | _ => none
  | '#' :: rest =>
    let ds := rest.takeWhile Char.isDigit
    if ds = [] then none
    else
      match rest.drop ds.length with
      | ';' :: _ => some (charOfCodepoint (digitsVal ds), ds.length + 2)
      | _ => none
  | rest =>
    let nm := rest.takeWhile Char.isAlphanum
    if nm = [] then none
    else
      match rest.drop nm.length with
      | ';' :: _ =>
        match namedCharref nm with
        | some c => some (c, nm.length + 1)
        | none => none
      | _ => none

/-- Tag-stripping and charref-decoding state machine: the flag is `true`
while inside a markup span.  The fuel starts at the length of the list and
bounds the number of steps, every one of which consumes at least one
character. -/
def stripTagsAux : Nat → Bool → List Char → List Char
  | 0, _, _ => []
  | _, _, [] => []
  | Nat.succ fuel, true, c :: rest =>
    if c = '>' then stripTagsAux fuel false rest else stripTagsAux fuel true rest
  | Nat.succ fuel, false, c :: rest =>
    if c = '<' then
      if tagOpener rest then ' ' :: stripTagsAux fuel true rest
      else '<' :: stripTagsAux fuel false rest
    else if c = '&' then
      match parseCharref rest with
      | some (d, k) => d :: stripTagsAux fuel false (rest.drop k)
      | none => '&' :: stripTagsAux fuel false rest
    else c :: stripTagsAux fuel false rest

/-- Models `BeautifulSoup(text, "html.parser").get_text(separator=" ")`. -/
def stripTags (s : List Char) : List Char := stripTagsAux s.length false s

/-- Python `str.split()`: maximal runs of non-whitespace characters, in order.
The accumulator holds the current word reversed. -/
def splitWordsAux : List Char → List Char → List (List Char)
  | [], acc => if acc = [] then [] else [acc.reverse]
  | c :: rest, acc =>
    if isWs c then
      if acc = [] then splitWordsAux rest [] else acc.reverse :: splitWordsAux rest []
    else splitWordsAux rest (c :: acc)

/-- Python `str.split()` (no separator argument). -/
def splitWords (s : List Char) : List (List Char) := splitWordsAux s []

/-- Python `" ".join(words)`. -/
def joinWords : List (List Char) → List Char
  | [] => []
  | [w] => w
  | w :: ws => w ++ ' ' :: joinWords ws

/-- The text-normalisation pipeline of `clean_text` on character lists:
strip tags, split on whitespace, join with single spaces, lowercase. -/
def cleanList (s : List Char) : List Char :=
  (joinWords (splitWords (stripTags s))).map pyLower

/-- `clean_text` (utils.py lines 99-108).  `none` models Python `None`,
a missing dictionary entry or a non-string value, all of which take the
`not text or not isinstance(text, str)` early return. -/
def clean_text : Option String → String
  | none => ""
  | some s => if s = "" then "" else ⟨cleanList s.data⟩

/-! ### Word-boundary keyword search

`re.search(rf'\b{kw}\b', text)` for an alphabetic keyword `kw`: an
occurrence of `kw` at a position whose preceding character (if any) is not
a word character and whose following character (if any) is not a word
character. -/

/-- `\b` before the match: start of string, or previous character not `\w`. -/
def boundaryOk : Option Char → Bool
  | none => true
  | some c => !isWordChar c

/-- `\b` after the match: end of string, or next character not `\w`. -/
def afterOk : List Char → Bool
  | [] => true
  | c :: _ => !isWordChar c

/-- Whole-word match of `w` at the current position of `s`, where `prev`
is the character just before that position. -/
def wordMatchAt (w : List Char) (prev : Option Char) (s : List Char) : Bool :=
  boundaryOk prev && w.isPrefixOf s && afterOk (s.drop w.length)

/-- Scan all positions of `s` for a whole-word match of `w`. -/
def containsWordFrom (w : List Char) : Option Char → List Char → Bool
  | prev, [] => wordMatchAt w prev []
  | prev, c :: rest => wordMatchAt w prev (c :: rest) || containsWordFrom w (some c) rest

/-- `re.search(rf'\b{kw}\b', s) is not None` for an alphanumeric keyword. -/
def containsWord (w s : String) : Bool := containsWordFrom w.data none s.data

/-- Substring occurrence of `p` at some position of the scanned list. -/
def containsSubFrom (p : List Char) : List Char → Bool
  | [] => p.isPrefixOf []
  | c :: rest => p.isPrefixOf (c :: rest) || containsSubFrom p rest

/-- Python `phrase in s`: substring containment. -/
def hasPhrase (p s : String) : Bool := containsSubFrom p.data s.data

/-! ### `extract_min_years` (utils.py lines 111-128)

The three `re.findall` patterns are modelled by position-wise matchers
returning the captured integer and the length of the whole match; the
scanner tries every position left to right and resumes after each match,
exactly as `re.findall` does.  All three patterns are deterministic:
every starred/plussed piece is followed by a character it can never
match, so greedy maximal munch needs no backtracking. -/

/-- Maximal run of ASCII digits at the head (`\d+` / `\d*`, greedy). -/
def readDigits (s : List Char) : List Char := s.takeWhile Char.isDigit

/-- Literal `years?`: returns the number of characters consumed. -/
def matchYears : List Char → Option Nat
  | 'y' :: 'e' :: 'a' :: 'r' :: 's' :: _ => some 5
  | 'y' :: 'e' :: 'a' :: 'r' :: _ => some 4
  | _ => none

/-- `(\d+)-(\d*\+?)\s*years?` anchored at the head of `s`: returns
(captured first group as a number, total match length). -/
def matchRangeAt (s : List Char) : Option (Nat × Nat) :=
  let ds := readDigits s
  if ds = [] then none else
  match s.drop ds.length with
  | '-' :: r2 =>
    let ds2 := readDigits r2
    let r3 := r2.drop ds2.length
    let pl : Nat := match r3 with
      | '+' :: _ => 1
      | _ => 0
    let r4 := r3.drop pl
    let ws := r4.takeWhile isWs
    match matchYears (r4.drop ws.length) with
    | some yl => some (digitsVal ds, ds.length + 1 + ds2.length + pl + ws.length + yl)
    | none => none
  | _ => none

/-- First alternative `(\d+)\+\s*years?` anchored at the head of `s`. -/
def matchPlusAlt1 (s : List Char) : Option (Nat × Nat) :=
  let ds := readDigits s
  if ds = [] then none else
  match s.drop ds.length with
  | '+' :: r2 =>
    let ws := r2.takeWhile isWs
    match matchYears (r2.drop ws.length) with
    | some yl => some (digitsVal ds, ds.length + 1 + ws.length + yl)
    | none => none
  | _ => none

/-- Second alternative `at least (\d+)\s*years?` anchored at the head of `s`. -/
def matchPlusAlt2 (s : List Char) : Option (Nat × Nat) :=
  match s with
  | 'a' :: 't' :: ' ' :: 'l' :: 'e' :: 'a' :: 's' :: 't' :: ' ' :: r1 =>
    let ds := readDigits r1
    if ds = [] then none else
    let r2 := r1.drop ds.length
    let ws := r2.takeWhile isWs
    match matchYears (r2.drop ws.length) with
    | some yl => some (digitsVal ds, 9 + ds.length + ws.length + yl)
    | none => none
  | _ => none

/-- `(\d+)\+\s*years?|at least (\d+)\s*years?`: the regex engine tries the
left alternative first at each position. -/
def matchPlusAt (s : List Char) : Option (Nat × Nat) :=
  match matchPlusAlt1 s with
  | some r => some r
  | none => matchPlusAlt2 s

/-- `(\d+)\s*years?` anchored at the head of `s`. -/
def matchStandaloneAt (s : List Char) : Option (Nat × Nat) :=
  let ds := readDigits s
  if ds = [] then none else
  let r1 := s.drop ds.length
  let ws := r1.takeWhile isWs
  match matchYears (r1.drop ws.length) with
  | some yl => some (digitsVal ds, ds.length + ws.length + yl)
  | none => none

/-- `re.findall` driver: try the matcher at each position, resume right
after each (nonempty) match.  The fuel starts at the length of the list
and bounds the number of steps, every one of which consumes at least one
character. -/
def scanAllAux (m : List Char → Option (Nat × Nat)) : Nat → List Char → List Nat
  | 0, _ => []
  | _, [] => []
  | Nat.succ fuel, c :: rest =>
    match m (c :: rest) with
    | some (v, len) => v :: scanAllAux m fuel (rest.drop (len - 1))
    | none => scanAllAux m fuel rest

/-- All captures of the pattern `m` over `s`, in `re.findall` order. -/
def scanAll (m : List Char → Option (Nat × Nat)) (s : List Char) : List Nat :=
  scanAllAux m s.length s

/-- The appending loop over `standalone_matches`: append each capture not
already present in the accumulated list. -/
def dedupAppendLoop : List Nat → List Nat → List Nat
  | acc, [] => acc
  | acc, n :: rest =>
    if acc.contains n then dedupAppendLoop acc rest else dedupAppendLoop (acc ++ [n]) rest

/-- Captured lower bounds of `range_matches` on the lowered text. -/
def rangeCaps (t : List Char) : List Nat := scanAll matchRangeAt t

/-- Captured numbers of `plus_matches` on the lowered text. -/
def plusCaps (t : List Char) : List Nat := scanAll matchPlusAt t

/-- Captured numbers of `standalone_matches` on the lowered text. -/
def standaloneCaps (t : List Char) : List Nat := scanAll matchStandaloneAt t

/-- `min(min_years) if min_years else 0`. -/
def poolMin : List Nat → Nat
  | [] => 0
  | n :: rest => rest.foldl Nat.min n

/-- `extract_min_years` (utils.py lines 111-128): pool the captures of the
three patterns (standalone captures deduplicated against the already
collected list) and return their minimum, `0` when the pool is empty. -/
def extract_min_years (text : String) : Nat :=
  let t := text.data.map pyLower
  poolMin (dedupAppendLoop (rangeCaps t ++ plusCaps t) (standaloneCaps t))

/-! ### The zero-start-range search of step 4 -/

/-- `\b0-\d*\+?\s*years?` anchored at the current position, `prev` the
character just before it. -/
def matchZeroRangeAt (prev : Option Char) (s : List Char) : Bool :=
  boundaryOk prev &&
  (match s with
   | '0' :: '-' :: r2 =>
     let ds2 := readDigits r2
     let r3 := r2.drop ds2.length
     let r4 : List Char := match r3 with
       | '+' :: t => t
       | _ => r3
     (matchYears (r4.dropWhile isWs)).isSome
   | _ => false)

/-- Scan all positions for the zero-start range pattern. -/
def searchZeroFrom : Option Char → List Char → Bool
  | _, [] => false
  | prev, c :: rest => matchZeroRangeAt prev (c :: rest) || searchZeroFrom (some c) rest

/-- `re.search(r'\b0-\d*\+?\s*years?', s) is not None` (utils.py line 169). -/
def has_zero_start_range (s : String) : Bool := searchZeroFrom none s.data

/-! ### `is_entry_level` (utils.py lines 130-195) -/

/-- A job dictionary as built by `create_job_entry`, plus the two optional
qualification fields.  For the four text fields read by `is_entry_level`,
`none` models a missing key, a `None` value or a non-string value; the
remaining fields are carried along but never read by the classifier. -/
structure Job where
  company : String := ""
  job_title : Option String := none
  url : String := ""
  location : String := ""
  posted_time : String := ""
  found_at : String := ""
  job_description : Option String := none
  minimum_qualifications : Option String := none
  preferred_qualifications : Option String := none

def positive_keywords : List String := ["junior", "associate", "intern"]

def positive_phrases : List String :=
  ["entry level", "entry-level", "new grad", "recent graduate", "early career",
   "internship experience", "student", "beginner"]

def negative_keywords : List String :=
  ["senior", "head", "sr", "staff", "lead", "manager", "principal", "expert",
   "vp", "director", "chief", "phd"]

/-- `clean_text(x) if x else ""`: the guard is Python truthiness, so a
missing/`None`/empty value short-circuits to the empty string. -/
def optClean (o : Option String) : String :=
  match o with
  | none => ""
  | some s => if s = "" then "" else clean_text (some s)

/-- `title = clean_text(job.get("job_title", ""))`. -/
def titleOf (j : Job) : String := clean_text j.job_title

/-- `description = clean_text(job.get("job_description", "")) if ... else ""`. -/
def descOf (j : Job) : String := optClean j.job_description

/-- `min_qual = clean_text(job.get("minimum_qualifications", "")) if ... else ""`. -/
def minQualOf (j : Job) : String := optClean j.minimum_qualifications

/-- `pref_qual = clean_text(job.get("preferred_qualifications", "")) if ... else ""`. -/
def prefQualOf (j : Job) : String := optClean j.preferred_qualifications

/-- Python `str.strip()`: drop whitespace from both ends. -/
def trimChars (s : String) : String :=
  ⟨(((s.data.dropWhile isWs).reverse.dropWhile isWs).reverse : List Char)⟩

/-- Step 1 condition: `"intern" in positive_keywords and re.search(r'\b(intern)\b', title)`. -/
def step1 (j : Job) : Bool :=
  positive_keywords.contains "intern" && containsWord "intern" (titleOf j)

/-- Step 2 condition: `any(re.search(rf'\b{kw}\b', title) for kw in negative_keywords)`. -/
def step2 (j : Job) : Bool :=
  negative_keywords.any (fun kw => containsWord kw (titleOf j))

/-- Step 3 condition: positive keywords (whole word) or positive phrases
(substring) in the title or the description. -/
def step3 (j : Job) : Bool :=
  positive_keywords.any
    (fun kw => containsWord kw (titleOf j) || containsWord kw (descOf j))
  || positive_phrases.any
    (fun p => hasPhrase p (titleOf j) || hasPhrase p (descOf j))

/-- `combined_text = f"{min_qual} {pref_qual} {description}".strip()`. -/
def combinedTextOf (j : Job) : String :=
  trimChars (minQualOf j ++ " " ++ prefQualOf j ++ " " ++ descOf j)

/-- Step 4 (utils.py lines 165-178): `some verdict` when the step returns,
`none` when it falls through to step 5 (combined text empty; the three
inner conditions are exhaustive on naturals, so a nonempty combined text
always returns). -/
def step4 (j : Job) : Option Bool :=
  if combinedTextOf j = "" then none
  else if has_zero_start_range (combinedTextOf j) then some true
  else if extract_min_years (combinedTextOf j) > 1 then some false
  else if extract_min_years (combinedTextOf j) = 0 ∨ extract_min_years (combinedTextOf j) = 1
    then some true
  else none

/-- Step 5 condition: positive keywords (whole word) or positive phrases
(substring) in the two qualification fields. -/
def step5 (j : Job) : Bool :=
  positive_keywords.any
    (fun kw => containsWord kw (minQualOf j) || containsWord kw (prefQualOf j))
  || positive_phrases.any
    (fun p => hasPhrase p (minQualOf j) || hasPhrase p (prefQualOf j))

/-- `is_entry_level` (utils.py lines 130-195), with the six steps in the
order of the code; step 6 is the default `True`. -/
def is_entry_level (j : Job) : Bool :=
  if step1 j then true
  else if step2 j then false
  else if step3 j then true
  else
    match step4 j with
    | some b => b
    | none => if step5 j then true else true

/-- `is_entry_level` restricted to steps 1-4 with the default verdict
`True` in place of step 5 (used to state that step 5 is dead code). -/
def is_entry_level_four (j : Job) : Bool :=
  if step1 j then true
  else if step2 j then false
  else if step3 j then true
  else
    match step4 j with
    | some b => b
    | none => true

/-! ### Checkers for the normaliser contract

`spacedAux` is a three-state acceptor for the language
`(word (space word)*)?` where a word is a nonempty run of non-whitespace
characters and the only separator is a single `' '`: state 0 = start,
state 1 = inside a word, state 2 = just after a separator space. -/

def spacedAux : Nat → List Char → Bool
  | 2, [] => false
  | _, [] => true
  | st, c :: rest =>
    if c = ' ' then
      if st = 1 then spacedAux 2 rest else false
    else
      !isWs c && spacedAux 1 rest

/-- The list has no leading/trailing whitespace, no whitespace other than
single `' '` separators, and every separator sits between two words. -/
def singleSpaced (l : List Char) : Bool := spacedAux 0 l

/-- No basic-latin capital letter (code point 65-90) occurs in the list. -/
def noUpper (l : List Char) : Bool :=
  l.all (fun c => !(decide (65 ≤ c.toNat ∧ c.toNat ≤ 90)))

/-! ### Concrete jobs used as witnesses and counterexamples -/

/-- A senior-titled internship: the internship override must win. -/
def jobInternSenior : Job := { job_title := some "Senior Software Engineering Intern" }

/-- Negative title with entry-level promotional language in the body. -/
def jobSeniorEntryBody : Job :=
  { job_title := some "Senior Software Engineer",
    job_description := some "This is an entry-level friendly team" }

/-- Title containing `lead` only inside the word `Leadership`. -/
def jobLeadership : Job := { job_title := some "Leadership Development Engineer" }

/-- All four text fields absent. -/
def jobEmpty : Job := {}

/-- All four text fields present but empty. -/
def jobEmptyStrings : Job :=
  { job_title := some "", job_description := some "",
    minimum_qualifications := some "", preferred_qualifications := some "" }

/-- Requires a minimum of one year: the experience-bound step admits. -/
def jobOneYear : Job :=
  { job_title := some "Software Engineer",
    minimum_qualifications := some "1 year of experience." }

/-- Requires 2-3 years: the experience-bound step rejects. -/
def jobTwoThreeYears : Job :=
  { job_title := some "Software Engineer",
    minimum_qualifications := some "2-3 years of experience in software development." }

/-- Two copies of the same four text fields differing in every other field. -/
def jobDetA : Job :=
  { company := "Acme", url := "https://a.example", location := "NYC",
    posted_time := "2025-03-12", found_at := "2025-03-13 09:00:00",
    job_title := some "Software Engineer", job_description := some "Build things.",
    minimum_qualifications := some "3+ years of experience.",
    preferred_qualifications := some "Python." }

/-- Same text fields as `jobDetA`, every other field different. -/
def jobDetB : Job :=
  { company := "Globex", url := "https://b.example", location := "SF",
    posted_time := "2024-01-01", found_at := "2024-01-02 10:00:00",
    job_title := some "Software Engineer", job_description := some "Build things.",
    minimum_qualifications := some "3+ years of experience.",
    preferred_qualifications := some "Python." }

end JobScraper



/-! ## Supporting lemmas -/

namespace JobScraper

/-! ### Character-level facts -/

theorem char_toNat_inj {a b : Char} (h : a.toNat = b.toNat) : a = b := by
  apply Char.ext
  apply UInt32.eq_of_toBitVec_eq
  apply BitVec.eq_of_toNat_eq
  exact h

theorem char_eq_iff_toNat {a b : Char} : a = b ↔ a.toNat = b.toNat :=
  ⟨fun h => congrArg _ h, char_toNat_inj⟩

theorem toNat_ofNat_valid {n : Nat} (h : n < 55296) : (Char.ofNat n).toNat = n := by
  rw [Char.ofNat, dif_pos (Or.inl h)]
  simp [Char.ofNatAux, Char.toNat, UInt32.toNat, BitVec.toNat_ofNatLt]

theorem pyLower_toNat (c : Char) :
    (pyLower c).toNat = if 65 ≤ c.toNat ∧ c.toNat ≤ 90 then c.toNat + 32 else c.toNat := by
  unfold pyLower
  split
  · next h => exact toNat_ofNat_valid (by omega)
  · rfl

theorem isWs_iff {c : Char} :
    isWs c = true ↔
      (c.toNat = 32 ∨ c.toNat = 9 ∨ c.toNat = 10 ∨ c.toNat = 13 ∨ c.toNat = 11 ∨ c.toNat = 12) := by
  simp [isWs, char_eq_iff_toNat, show (' ').toNat = 32 from rfl, show ('\t').toNat = 9 from rfl,
    show ('\n').toNat = 10 from rfl, show ('\r').toNat = 13 from rfl,
    show ('\x0b').toNat = 11 from rfl, show ('\x0c').toNat = 12 from rfl]
  tauto

theorem pyLower_isWs (c : Char) : isWs (pyLower c) = isWs c := by
  by_cases h : 65 ≤ c.toNat ∧ c.toNat ≤ 90
  · have h1 : (pyLower c).toNat = c.toNat + 32 := by rw [pyLower_toNat, if_pos h]
    have h2 : isWs (pyLower c) = false := by
      rw [← Bool.not_eq_true, isWs_iff]
      omega
    have h3 : isWs c = false := by
      rw [← Bool.not_eq_true, isWs_iff]
      omega
    rw [h2, h3]
  · have h1 : pyLower c = c := by unfold pyLower; rw [if_neg h]
    rw [h1]

theorem pyLower_not_upper (c : Char) :
    (!(decide (65 ≤ (pyLower c).toNat ∧ (pyLower c).toNat ≤ 90))) = true := by
  by_cases h : 65 ≤ c.toNat ∧ c.toNat ≤ 90
  · have h1 : (pyLower c).toNat = c.toNat + 32 := by rw [pyLower_toNat, if_pos h]
    simp only [Bool.not_eq_true', decide_eq_false_iff_not]
    omega
  · have h1 : pyLower c = c := by unfold pyLower; rw [if_neg h]
    simp only [h1, Bool.not_eq_true', decide_eq_false_iff_not]
    exact h

theorem pyLower_space : pyLower ' ' = ' ' := by decide

/-! ### `splitWords` produces nonempty whitespace-free words -/

theorem splitWordsAux_good : ∀ (s acc : List Char),
    (∀ c ∈ acc, isWs c = false) →
    ∀ w ∈ splitWordsAux s acc, w ≠ [] ∧ ∀ c ∈ w, isWs c = false
  | [], acc, hacc => by
    simp only [splitWordsAux]
    split
    · simp
    · next h =>
      intro w hw
      simp only [List.mem_singleton] at hw
      subst hw
      refine ⟨by simpa using h, ?_⟩
      intro c hc
      exact hacc c (List.mem_reverse.mp hc)
  | c :: rest, acc, hacc => by
    simp only [splitWordsAux]
    split
    · next hws =>
      split
      · exact splitWordsAux_good rest [] (by simp)
      · next hne =>
        intro w hw
        rcases List.mem_cons.mp hw with hw | hw
        · subst hw
          exact ⟨by simpa using hne, fun d hd => hacc d (List.mem_reverse.mp hd)⟩
        · exact splitWordsAux_good rest [] (by simp) w hw
    · next hws =>
      refine splitWordsAux_good rest (c :: acc) ?_
      intro d hd
      rcases List.mem_cons.mp hd with rfl | hd
      · simpa using hws
      · exact hacc d hd

theorem splitWords_good (s : List Char) :
    ∀ w ∈ splitWords s, w ≠ [] ∧ ∀ c ∈ w, isWs c = false :=
  splitWordsAux_good s [] (by simp)

/-! ### `joinWords` and the single-space acceptor -/

theorem spacedAux_word : ∀ (w : List Char) (st : Nat) (l : List Char),
    w ≠ [] → (∀ c ∈ w, isWs c = false) →
    spacedAux st (w ++ l) = spacedAux 1 l
  | [], _, _, hne, _ => absurd rfl hne
  | c :: w, st, l, _, hgood => by
    have hc : isWs c = false := hgood c (List.mem_cons_self _ _)
    have hcs : ¬(c = ' ') := by
      intro h
      subst h
      simp [isWs] at hc
    simp only [List.cons_append, spacedAux, if_neg hcs, hc, Bool.not_false, Bool.true_and]
    rcases w with _ | ⟨d, w⟩
    · simp
    · exact spacedAux_word (d :: w) 1 l (by simp) (fun e he => hgood e (List.mem_cons_of_mem _ he))

theorem spacedAux_joinWords : ∀ (ws : List (List Char)),
    (∀ w ∈ ws, w ≠ [] ∧ ∀ c ∈ w, isWs c = false) →
    spacedAux 0 (joinWords ws) = true ∧ (ws ≠ [] → spacedAux 2 (joinWords ws) = true)
  | [], _ => ⟨rfl, fun h => absurd rfl h⟩
  | [w], hws => by
    obtain ⟨hne, hgood⟩ := hws w (by simp)
    constructor
    · have := spacedAux_word w 0 [] hne hgood
      simpa using this
    · intro _
      have := spacedAux_word w 2 [] hne hgood
      simpa [joinWords] using this
  | w :: w' :: ws, hws => by
    obtain ⟨hne, hgood⟩ := hws w (by simp)
    have ih := spacedAux_joinWords (w' :: ws) (fun u hu => hws u (List.mem_cons_of_mem _ hu))
    have ih2 : spacedAux 2 (joinWords (w' :: ws)) = true := ih.2 (by simp)
    constructor
    · rw [show joinWords (w :: w' :: ws) = w ++ ' ' :: joinWords (w' :: ws) from rfl]
      rw [spacedAux_word w 0 (' ' :: joinWords (w' :: ws)) hne hgood]
      simpa [spacedAux] using ih2
    · intro _
      rw [show joinWords (w :: w' :: ws) = w ++ ' ' :: joinWords (w' :: ws) from rfl]
      rw [spacedAux_word w 2 (' ' :: joinWords (w' :: ws)) hne hgood]
      simpa [spacedAux] using ih2

theorem map_pyLower_joinWords : ∀ ws : List (List Char),
    (joinWords ws).map pyLower = joinWords (ws.map (List.map pyLower))
  | [] => rfl
  | [w] => rfl
  | w :: w' :: ws => by
    have ih := map_pyLower_joinWords (w' :: ws)
    rw [show joinWords (w :: w' :: ws) = w ++ ' ' :: joinWords (w' :: ws) from rfl]
    rw [List.map_append]
    rw [show List.map pyLower (' ' :: joinWords (w' :: ws))
        = ' ' :: List.map pyLower (joinWords (w' :: ws)) by simp [pyLower_space]]
    rw [ih]
    rfl

end JobScraper

namespace JobScraper

/-! ### The normaliser contract on `cleanList` and `clean_text` -/

theorem cleanList_singleSpaced (s : List Char) : singleSpaced (cleanList s) = true := by
  unfold cleanList singleSpaced
  rw [map_pyLower_joinWords]
  refine (spacedAux_joinWords _ ?_).1
  intro w hw
  rcases List.mem_map.mp hw with ⟨u, hu, rfl⟩
  obtain ⟨hne, hgood⟩ := splitWords_good _ u hu
  constructor
  · simpa using hne
  · intro c hc
    rcases List.mem_map.mp hc with ⟨d, hd, rfl⟩
    rw [pyLower_isWs]
    exact hgood d hd

theorem cleanList_noUpper (s : List Char) : noUpper (cleanList s) = true := by
  unfold cleanList noUpper
  rw [List.all_eq_true]
  intro c hc
  rcases List.mem_map.mp hc with ⟨d, _, rfl⟩
  exact pyLower_not_upper d

theorem clean_text_data : ∀ o : Option String,
    (clean_text o).data = [] ∨ ∃ s : String, (clean_text o).data = cleanList s.data
  | none => Or.inl rfl
  | some s => by
    by_cases h : s = ""
    · left
      simp [clean_text, h]
    · right
      exact ⟨s, by simp [clean_text, h]⟩

theorem clean_text_contract (o : Option String) :
    singleSpaced (clean_text o).data = true ∧ noUpper (clean_text o).data = true := by
  rcases clean_text_data o with h | ⟨s, h⟩ <;> rw [h]
  · exact ⟨rfl, rfl⟩
  · exact ⟨cleanList_singleSpaced _, cleanList_noUpper _⟩

/-! ### Cleaned strings that are all whitespace are empty -/

theorem singleSpaced_head {c : Char} {rest : List Char}
    (h : singleSpaced (c :: rest) = true) : isWs c = false := by
  unfold singleSpaced spacedAux at h
  by_cases hc : c = ' '
  · subst hc
    simp at h
  · rw [if_neg hc, Bool.and_eq_true] at h
    simpa using h.1

theorem string_eq_empty_of_data {s : String} (h : s.data = []) : s = "" := by
  cases s
  simp_all

theorem clean_eq_empty_of_all_ws (o : Option String)
    (h : ∀ c ∈ (clean_text o).data, isWs c = true) : clean_text o = "" := by
  apply string_eq_empty_of_data
  rcases hl : (clean_text o).data with _ | ⟨c, rest⟩
  · rfl
  · exfalso
    have hss := (clean_text_contract o).1
    rw [hl] at hss
    have := singleSpaced_head hss
    have h2 := h c (by simp [hl])
    rw [this] at h2
    exact Bool.false_ne_true h2

theorem trimChars_eq_empty_all_ws {s : String} (h : trimChars s = "") :
    ∀ c ∈ s.data, isWs c = true := by
  have hdata : (trimChars s).data = [] := by rw [h]
  unfold trimChars at hdata
  simp only at hdata
  have h1 : (s.data.dropWhile isWs).reverse.dropWhile isWs = [] := by
    have := congrArg List.reverse hdata
    simpa using this
  rw [List.dropWhile_eq_nil_iff] at h1
  have h2 : ∀ c ∈ s.data.dropWhile isWs, isWs c = true := by
    intro c hc
    exact h1 c (List.mem_reverse.mpr hc)
  intro c hc
  rw [← List.takeWhile_append_dropWhile (p := isWs) (l := s.data)] at hc
  rcases List.mem_append.mp hc with hc | hc
  · exact List.mem_takeWhile_imp hc
  · exact h2 c hc

theorem optClean_all_ws (o : Option String)
    (h : ∀ c ∈ (optClean o).data, isWs c = true) : optClean o = "" := by
  match o with
  | none => rfl
  | some s =>
    by_cases hs : s = ""
    · show (if s = "" then "" else clean_text (some s)) = ""
      rw [if_pos hs]
    · have he : optClean (some s) = clean_text (some s) := by
        show (if s = "" then "" else clean_text (some s)) = clean_text (some s)
        rw [if_neg hs]
      rw [he]
      apply clean_eq_empty_of_all_ws
      intro c hc
      apply h
      rw [he]
      exact hc

theorem combined_empty_fields {j : Job} (h : combinedTextOf j = "") :
    minQualOf j = "" ∧ prefQualOf j = "" ∧ descOf j = "" := by
  unfold combinedTextOf at h
  have hws := trimChars_eq_empty_all_ws h
  simp only [String.data_append] at hws
  refine ⟨optClean_all_ws _ ?_, optClean_all_ws _ ?_, optClean_all_ws _ ?_⟩
  · intro c hc
    exact hws c (by simp [minQualOf] at hc ⊢; simp [hc])
  · intro c hc
    exact hws c (by simp [prefQualOf] at hc ⊢; simp [hc])
  · intro c hc
    exact hws c (by simp [descOf] at hc ⊢; simp [hc])

theorem step5_of_empty {j : Job} (hm : minQualOf j = "") (hp : prefQualOf j = "") :
    step5 j = false := by
  unfold step5
  rw [hm, hp]
  decide

theorem step4_ne_none {j : Job} (h : ¬(combinedTextOf j = "")) : step4 j ≠ none := by
  unfold step4
  rw [if_neg h]
  by_cases h0 : has_zero_start_range (combinedTextOf j) = true
  · rw [if_pos h0]
    simp
  · rw [if_neg h0]
    by_cases h1 : extract_min_years (combinedTextOf j) > 1
    · rw [if_pos h1]
      simp
    · rw [if_neg h1]
      have hin : extract_min_years (combinedTextOf j) = 0 ∨
          extract_min_years (combinedTextOf j) = 1 := by
        omega
      rw [if_pos hin]
      simp

end JobScraper

namespace JobScraper

/-! ### Pooling lemmas for `extract_min_years` -/

theorem mem_dedupAppendLoop : ∀ (l acc : List Nat) (x : Nat),
    x ∈ dedupAppendLoop acc l ↔ x ∈ acc ∨ x ∈ l
  | [], acc, x => by simp [dedupAppendLoop]
  | n :: rest, acc, x => by
    unfold dedupAppendLoop
    split
    · next hmem =>
      rw [mem_dedupAppendLoop rest acc x]
      have hn : n ∈ acc := by simpa [List.contains] using hmem
      constructor
      · rintro (h | h)
        · exact Or.inl h
        · exact Or.inr (List.mem_cons_of_mem _ h)
      · rintro (h | h)
        · exact Or.inl h
        · rcases List.mem_cons.mp h with rfl | h
          · exact Or.inl hn
          · exact Or.inr h
    · rw [mem_dedupAppendLoop rest (acc ++ [n]) x]
      simp only [List.mem_append, List.mem_cons, List.mem_singleton]
      tauto

theorem foldl_min_le_init : ∀ (rest : List Nat) (n : Nat), rest.foldl Nat.min n ≤ n
  | [], n => Nat.le_refl n
  | m :: rest, n => by
    simp only [List.foldl_cons]
    exact Nat.le_trans (foldl_min_le_init rest (Nat.min n m)) (Nat.min_le_left n m)

theorem foldl_min_le_mem : ∀ (rest : List Nat) (n x : Nat), x ∈ rest → rest.foldl Nat.min n ≤ x
  | [], _, _, hx => by simp at hx
  | m :: rest, n, x, hx => by
    simp only [List.foldl_cons]
    rcases List.mem_cons.mp hx with rfl | hx
    · exact Nat.le_trans (foldl_min_le_init rest (Nat.min n x)) (Nat.min_le_right n x)
    · exact foldl_min_le_mem rest (Nat.min n m) x hx

theorem foldl_min_mem :
    ∀ (rest : List Nat) (n : Nat), rest.foldl Nat.min n = n ∨ rest.foldl Nat.min n ∈ rest
  | [], n => Or.inl rfl
  | m :: rest, n => by
    simp only [List.foldl_cons]
    rcases foldl_min_mem rest (Nat.min n m) with h | h
    · rcases Nat.le_total n m with hnm | hmn
      · rw [h, show Nat.min n m = n from Nat.min_eq_left hnm]
        exact Or.inl rfl
      · rw [h, show Nat.min n m = m from Nat.min_eq_right hmn]
        exact Or.inr (List.mem_cons_self _ _)
    · exact Or.inr (List.mem_cons_of_mem _ h)

theorem poolMin_mem : ∀ (l : List Nat), l ≠ [] → poolMin l ∈ l
  | [], h => absurd rfl h
  | n :: rest, _ => by
    show rest.foldl Nat.min n ∈ n :: rest
    rcases foldl_min_mem rest n with h | h
    · rw [h]
      exact List.mem_cons_self _ _
    · exact List.mem_cons_of_mem _ h

theorem poolMin_le : ∀ (l : List Nat), ∀ x ∈ l, poolMin l ≤ x
  | [], x, hx => by simp at hx
  | n :: rest, x, hx => by
    show rest.foldl Nat.min n ≤ x
    rcases List.mem_cons.mp hx with rfl | hx
    · exact foldl_min_le_init rest x
    · exact foldl_min_le_mem rest n x hx

theorem poolMin_congr {l1 l2 : List Nat} (h : ∀ x, x ∈ l1 ↔ x ∈ l2) : poolMin l1 = poolMin l2 := by
  rcases hl1 : l1 with _ | ⟨n, rest⟩
  · rcases hl2 : l2 with _ | ⟨m, rest2⟩
    · rfl
    · exfalso
      have := (h m).mpr (by rw [hl2]; exact List.mem_cons_self _ _)
      rw [hl1] at this
      simp at this
  · have hne1 : l1 ≠ [] := by rw [hl1]; simp
    have hne2 : l2 ≠ [] := by
      rcases hl2 : l2 with _ | _
      · exfalso
        have := (h n).mp (by rw [hl1]; exact List.mem_cons_self _ _)
        rw [hl2] at this
        simp at this
      · simp
    rw [← hl1]
    apply Nat.le_antisymm
    · exact poolMin_le l1 _ ((h _).mpr (poolMin_mem l2 hne2))
    · exact poolMin_le l2 _ ((h _).mp (poolMin_mem l1 hne1))

/-! ### Shared congruence and defaulting lemmas -/

theorem is_entry_level_congr {j1 j2 : Job} (ht : titleOf j1 = titleOf j2)
    (hd : descOf j1 = descOf j2) (hm : minQualOf j1 = minQualOf j2)
    (hp : prefQualOf j1 = prefQualOf j2) : is_entry_level j1 = is_entry_level j2 := by
  unfold is_entry_level step1 step2 step3 step4 step5 combinedTextOf
  rw [ht, hd, hm, hp]

theorem clean_text_getD (o : Option String) : clean_text (some (o.getD "")) = clean_text o := by
  cases o <;> rfl

theorem optClean_getD (o : Option String) : optClean (some (o.getD "")) = optClean o := by
  cases o <;> rfl

end JobScraper

/-! ## The claims -/

namespace JobScraper

/-- Claim C1.  Internship override dominance: for every job record whose
normalised title contains the whole word `intern`, `is_entry_level`
admits, regardless of the contents of the description and qualification
fields and regardless of any negative keyword anywhere, the title
included. -/
theorem internship_override_dominance (j : Job)
    (h : containsWord "intern" (titleOf j) = true) : is_entry_level j = true := by
  have h1 : step1 j = true := by
    unfold step1
    rw [h]
    decide
  unfold is_entry_level
  rw [h1]
  simp

/-- Witness for C1: the job titled `Senior Software Engineering Intern`
satisfies the hypothesis and is admitted. -/
theorem internship_override_dominance_witness :
    containsWord "intern" (titleOf jobInternSenior) = true ∧
      is_entry_level jobInternSenior = true :=
  ⟨by decide, internship_override_dominance jobInternSenior (by decide)⟩

/-- Claim C2.  Title-negative dominance: a job whose normalised title does
not contain the whole word `intern` but contains some negative keyword as
a whole word is rejected, whatever positive phrases the other fields
contain. -/
theorem title_negative_dominance (j : Job)
    (hni : containsWord "intern" (titleOf j) = false)
    (hneg : ∃ kw ∈ negative_keywords, containsWord kw (titleOf j) = true) :
    is_entry_level j = false := by
  have h1 : step1 j = false := by
    unfold step1
    rw [hni]
    decide
  have h2 : step2 j = true := by
    simp only [step2, List.any_eq_true]
    rcases hneg with ⟨kw, hkw, hc⟩
    exact ⟨kw, hkw, hc⟩
  unfold is_entry_level
  rw [h1, h2]
  simp

/-- Witness for C2: title `Senior Software Engineer` with the
body-positive description `This is an entry-level friendly team` is
rejected even though the description contains the phrase `entry-level`. -/
theorem title_negative_dominance_witness :
    is_entry_level jobSeniorEntryBody = false ∧
      hasPhrase "entry-level" (descOf jobSeniorEntryBody) = true :=
  ⟨title_negative_dominance jobSeniorEntryBody (by decide) (by decide), by decide⟩

/-- Claim C3.  `extract_min_years` pooling: on every input the result is
the minimum of all integers captured by the three pattern families
(range lower bounds, plus/at-least numbers, standalone numbers), `0` when
nothing matches anywhere, and on
`"5+ years required, but 0-2 years acceptable for strong candidates"`
the result is `0`. -/
theorem extract_min_years_pooling :
    (∀ text : String,
        extract_min_years text =
          poolMin (rangeCaps (text.data.map pyLower) ++ plusCaps (text.data.map pyLower) ++
            standaloneCaps (text.data.map pyLower))) ∧
    (∀ text : String,
        rangeCaps (text.data.map pyLower) = [] → plusCaps (text.data.map pyLower) = [] →
          standaloneCaps (text.data.map pyLower) = [] → extract_min_years text = 0) ∧
    extract_min_years "5+ years required, but 0-2 years acceptable for strong candidates" = 0 := by
  have hmain : ∀ text : String,
      extract_min_years text =
        poolMin (rangeCaps (text.data.map pyLower) ++ plusCaps (text.data.map pyLower) ++
          standaloneCaps (text.data.map pyLower)) := by
    intro text
    unfold extract_min_years
    apply poolMin_congr
    intro x
    rw [mem_dedupAppendLoop]
    simp only [List.mem_append, or_assoc]
  refine ⟨hmain, ?_, by decide⟩
  intro text h1 h2 h3
  rw [hmain text, h1, h2, h3]
  rfl

/-- Witness for C3: a text with no year expression at all has empty
capture pools and yields `0`. -/
theorem extract_min_years_pooling_witness :
    rangeCaps (("Bachelor of Science in Computing").data.map pyLower) = [] ∧
      extract_min_years "Bachelor of Science in Computing" = 0 :=
  ⟨by decide,
   extract_min_years_pooling.2.1 "Bachelor of Science in Computing"
     (by decide) (by decide) (by decide)⟩

/-- Claim C4.  Experience-bound step: when none of the first three rules
fires, the combined qualifications/description blob decides: a zero-start
range admits; otherwise a minimum above one year rejects and a minimum of
zero or one admits. -/
theorem experience_bound_step (j : Job)
    (h1 : step1 j = false) (h2 : step2 j = false) (h3 : step3 j = false) :
    (has_zero_start_range (combinedTextOf j) = true → is_entry_level j = true) ∧
    (has_zero_start_range (combinedTextOf j) = false →
       extract_min_years (combinedTextOf j) > 1 → is_entry_level j = false) ∧
    (has_zero_start_range (combinedTextOf j) = false →
       (extract_min_years (combinedTextOf j) = 0 ∨ extract_min_years (combinedTextOf j) = 1) →
       is_entry_level j = true) := by
  have hIE : is_entry_level j =
      (match step4 j with
       | some b => b
       | none => if step5 j then true else true) := by
    unfold is_entry_level
    rw [h1, h2, h3]
    simp
  refine ⟨?_, ?_, ?_⟩
  · intro hz
    have hc : ¬(combinedTextOf j = "") := by
      intro he
      rw [he] at hz
      exact absurd hz (by decide)
    have hs4 : step4 j = some true := by
      unfold step4
      rw [if_neg hc, if_pos hz]
    rw [hIE, hs4]
  · intro hz hgt
    by_cases hc : combinedTextOf j = ""
    · exfalso
      rw [hc] at hgt
      have h0 : extract_min_years "" = 0 := by decide
      omega
    · have hs4 : step4 j = some false := by
        unfold step4
        rw [if_neg hc, if_neg (by simp [hz]), if_pos hgt]
      rw [hIE, hs4]
  · intro hz hin
    by_cases hc : combinedTextOf j = ""
    · have hs4 : step4 j = none := by
        unfold step4
        rw [if_pos hc]
      rw [hIE, hs4]
      simp
    · have hgt : ¬(extract_min_years (combinedTextOf j) > 1) := by omega
      have hs4 : step4 j = some true := by
        unfold step4
        rw [if_neg hc, if_neg (by simp [hz]), if_neg hgt, if_pos hin]
      rw [hIE, hs4]

/-- Witness for C4: `2-3 years of experience` in the minimum
qualifications rejects, `1 year of experience` admits, both through the
experience-bound step. -/
theorem experience_bound_step_witness :
    (step1 jobTwoThreeYears = false ∧ step2 jobTwoThreeYears = false ∧
       step3 jobTwoThreeYears = false) ∧
    has_zero_start_range (combinedTextOf jobTwoThreeYears) = false ∧
    extract_min_years (combinedTextOf jobTwoThreeYears) > 1 ∧
    is_entry_level jobTwoThreeYears = false ∧
    is_entry_level jobOneYear = true :=
  ⟨⟨by decide, by decide, by decide⟩, by decide, by decide,
   (experience_bound_step jobTwoThreeYears (by decide) (by decide) (by decide)).2.1
     (by decide) (by decide),
   (experience_bound_step jobOneYear (by decide) (by decide) (by decide)).2.2
     (by decide) (by decide)⟩

/-- Claim C5.  Whole-word, not substring, matching: in the title
`Leadership Development Engineer` the keyword `lead` occurs as a
substring but not as a whole word, the title-rejection condition does not
fire, and the job is admitted. -/
theorem whole_word_not_substring :
    containsWord "lead" (titleOf jobLeadership) = false ∧
      hasPhrase "lead" (titleOf jobLeadership) = true ∧
      step2 jobLeadership = false ∧
      is_entry_level jobLeadership = true :=
  ⟨by decide, by decide, by decide, by decide⟩

/-- Claim C6.  Totality with permissive default: `is_entry_level` always
returns one of the two boolean verdicts, absent (`none`) fields behave
exactly like empty strings, and a job with all four text fields absent or
empty is admitted. -/
theorem classifier_total_and_permissive :
    (∀ j : Job, is_entry_level j = true ∨ is_entry_level j = false) ∧
    (∀ j : Job, is_entry_level j = is_entry_level
        { j with job_title := some (j.job_title.getD ""),
                 job_description := some (j.job_description.getD ""),
                 minimum_qualifications := some (j.minimum_qualifications.getD ""),
                 preferred_qualifications := some (j.preferred_qualifications.getD "") }) ∧
    is_entry_level jobEmpty = true ∧ is_entry_level jobEmptyStrings = true := by
  refine ⟨fun j => ?_, fun j => ?_, by decide, by decide⟩
  · cases h : is_entry_level j
    · exact Or.inr rfl
    · exact Or.inl rfl
  · apply is_entry_level_congr
    · exact (clean_text_getD j.job_title).symm
    · exact (optClean_getD j.job_description).symm
    · exact (optClean_getD j.minimum_qualifications).symm
    · exact (optClean_getD j.preferred_qualifications).symm

/-- Claim C7.  Normaliser contract: every output of `clean_text` is free
of capital basic-latin letters and consists of nonempty words separated by
single spaces — so all whitespace runs are collapsed and there is no
leading or trailing whitespace; empty and non-string inputs give the empty
string (and the function is total).  HTML-tag stripping follows
`html.parser` and is witnessed on representative inputs: real markup is
removed, while a `<` that opens no markup stays literal text and decoded
character references may reintroduce `<` — which is why tag stripping
cannot be stated as "the output contains no `<`". -/
theorem clean_text_normalizer_contract :
    (∀ o : Option String,
        singleSpaced (clean_text o).data = true ∧
        noUpper (clean_text o).data = true) ∧
    (clean_text none = "" ∧ clean_text (some "") = "") ∧
    clean_text (some "<p>Hello <b>World</b></p>") = "hello world" ∧
    clean_text (some "a < b") = "a < b" ∧
    clean_text (some "5 &lt; 10") = "5 < 10" :=
  ⟨clean_text_contract, ⟨rfl, by decide⟩, by decide, by decide, by decide⟩

/-- Claim C8.  Determinism: the verdict is a pure function of the four
text fields; two job records agreeing on them get the same verdict
whatever their other fields hold. -/
theorem classification_deterministic (j1 j2 : Job)
    (ht : j1.job_title = j2.job_title)
    (hd : j1.job_description = j2.job_description)
    (hm : j1.minimum_qualifications = j2.minimum_qualifications)
    (hp : j1.preferred_qualifications = j2.preferred_qualifications) :
    is_entry_level j1 = is_entry_level j2 := by
  apply is_entry_level_congr
  · unfold titleOf
    rw [ht]
  · unfold descOf
    rw [hd]
  · unfold minQualOf
    rw [hm]
  · unfold prefQualOf
    rw [hp]

/-- Witness for C8: two jobs with the same four text fields but different
company, url, location and timestamps get the same verdict. -/
theorem classification_deterministic_witness :
    is_entry_level jobDetA = is_entry_level jobDetB ∧ jobDetA.company ≠ jobDetB.company :=
  ⟨classification_deterministic jobDetA jobDetB rfl rfl rfl rfl, by decide⟩

/-- Claim C9.  Rejection has exactly two causes: a `false` verdict forces
either a negative whole-word keyword in an intern-free title, or a
combined blob without zero-start range whose extracted minimum exceeds
one year. -/
theorem rejection_has_two_causes (j : Job) (h : is_entry_level j = false) :
    (containsWord "intern" (titleOf j) = false ∧ step2 j = true) ∨
    (has_zero_start_range (combinedTextOf j) = false ∧
       extract_min_years (combinedTextOf j) > 1) := by
  unfold is_entry_level at h
  by_cases h1 : step1 j = true
  · rw [if_pos h1] at h
    exact absurd h (by decide)
  · rw [if_neg h1] at h
    by_cases h2 : step2 j = true
    · left
      refine ⟨?_, h2⟩
      have h1' : step1 j = false := Bool.eq_false_iff.mpr h1
      unfold step1 at h1'
      rcases Bool.and_eq_false_iff.mp h1' with hc | hc
      · exact absurd hc (by decide)
      · exact hc
    · rw [if_neg h2] at h
      by_cases h3 : step3 j = true
      · rw [if_pos h3] at h
        exact absurd h (by decide)
      · rw [if_neg h3] at h
        rcases hs4 : step4 j with _ | b
        · simp only [hs4] at h
          by_cases h5 : step5 j = true
          · rw [if_pos h5] at h
            exact absurd h (by decide)
          · rw [if_neg h5] at h
            exact absurd h (by decide)
        · simp only [hs4] at h
          right
          unfold step4 at hs4
          by_cases hc : combinedTextOf j = ""
          · rw [if_pos hc] at hs4
            exact absurd hs4 (by simp)
          · rw [if_neg hc] at hs4
            by_cases hz : has_zero_start_range (combinedTextOf j) = true
            · rw [if_pos hz] at hs4
              injection hs4 with hb
              rw [h] at hb
              exact absurd hb (by decide)
            · rw [if_neg hz] at hs4
              by_cases hgt : extract_min_years (combinedTextOf j) > 1
              · exact ⟨Bool.eq_false_iff.mpr hz, hgt⟩
              · rw [if_neg hgt] at hs4
                by_cases hin : extract_min_years (combinedTextOf j) = 0 ∨
                    extract_min_years (combinedTextOf j) = 1
                · rw [if_pos hin] at hs4
                  injection hs4 with hb
                  rw [h] at hb
                  exact absurd hb (by decide)
                · rw [if_neg hin] at hs4
                  exact absurd hs4 (by simp)

/-- Witness for C9: the rejected `2-3 years` job exhibits the second
cause. -/
theorem rejection_has_two_causes_witness :
    is_entry_level jobTwoThreeYears = false ∧
    ((containsWord "intern" (titleOf jobTwoThreeYears) = false ∧
        step2 jobTwoThreeYears = true) ∨
      (has_zero_start_range (combinedTextOf jobTwoThreeYears) = false ∧
        extract_min_years (combinedTextOf jobTwoThreeYears) > 1)) :=
  ⟨by decide, rejection_has_two_causes jobTwoThreeYears (by decide)⟩

/-- Claim C10.  The qualification-text admission step is dead code: a
nonempty combined blob always makes step 4 return, an empty blob makes
the step-5 condition false, and the verdict always equals the verdict of
the first four rules with the default admit. -/
theorem qualification_step_never_decides :
    (∀ j : Job, combinedTextOf j ≠ "" → step4 j ≠ none) ∧
    (∀ j : Job, combinedTextOf j = "" → step5 j = false) ∧
    (∀ j : Job, is_entry_level j = is_entry_level_four j) := by
  refine ⟨fun j h => step4_ne_none h, fun j hc => ?_, fun j => ?_⟩
  · obtain ⟨hm, hp, _⟩ := combined_empty_fields hc
    exact step5_of_empty hm hp
  · unfold is_entry_level is_entry_level_four
    rcases hs : step4 j with _ | b
    · simp only [hs]
      rw [ite_self]
    · simp only [hs]

/-- Witness for C10 at two concrete jobs: one with a nonempty blob where
step 4 decides, one with an empty blob where step 5 cannot fire. -/
theorem qualification_step_never_decides_witness :
    step4 jobOneYear ≠ none ∧ step5 jobEmpty = false ∧
      is_entry_level jobOneYear = is_entry_level_four jobOneYear :=
  ⟨qualification_step_never_decides.1 jobOneYear (by decide),
   qualification_step_never_decides.2.1 jobEmpty (by decide),
   qualification_step_never_decides.2.2 jobOneYear⟩

end JobScraper
